import Mathlib

/-!
Verification of the `ai-session-flow` synchronization engine
(`src/scripts/sync-engine.js`) against its natural-language specification.

The JavaScript source is shallowly embedded: JS strings are modelled as
`List Char` (`JStr`), normalized absolute filesystem paths as lists of path
components (`JPath`), fallible JS functions (those that `throw`) as
`Except`-valued Lean functions, and the filesystem as explicit data passed
through the modelled operations.
-/

namespace SyncEngine

/-- A JavaScript string, modelled as its sequence of characters. -/
abbrev JStr := List Char

/-- A normalized absolute filesystem path, as its list of components
(`/home/u/x` is `[home, u, x]`).  Node's `path.resolve` normalization is
the identity on such paths. -/
abbrev JPath := List JStr

/-- Path separator characters replaced by the mapper's regex `/[\\/]+/g`. -/
def isSep (c : Char) : Bool := c == '/' || c == '\\'

/-- Embedding of `rel.replace(/[\\/]+/g, '__')` from `mapSourceToDest`
(sync-engine.js line 153): each maximal run of separators becomes a literal
`__`.  The boolean records whether the previous character was a separator
(i.e. whether we are inside a run that has already been replaced). -/
def replaceSepsAux : Bool → List Char → List Char
  | _, [] => []
  | prevSep, c :: rest =>
    if isSep c then
      if prevSep then replaceSepsAux true rest
      else '_' :: '_' :: replaceSepsAux true rest
    else c :: replaceSepsAux false rest

/-- `s.replace(/[\\/]+/g, '__')`. -/
def replaceSeps (s : JStr) : JStr := replaceSepsAux false s

/-- Join path components with `/`, as Node renders a relative path. -/
def joinSlash : JPath → JStr
  | [] => []
  | [c] => c
  | c :: rest => c ++ '/' :: joinSlash rest

/-- Length of the longest common component prefix of two paths. -/
def commonPrefixLen : JPath → JPath → Nat
  | a :: as, b :: bs => if a = b then commonPrefixLen as bs + 1 else 0
  | _, _ => 0

/-- Embedding of Node's `path.relative(fr, to)` for normalized absolute
paths: strip the common prefix, go up with `..` for each remaining
component of `fr`, then down the remaining components of `to`. -/
def pathRelative (fr p : JPath) : JStr :=
  let k := commonPrefixLen fr p
  joinSlash (List.replicate (fr.length - k) ['.', '.'] ++ p.drop k)

/-- The fixed workspace directory component `.ai-session-flow`
(`SYNC_DIR = path.join(os.homedir(), '.ai-session-flow')`, line 7). -/
def syncDirName : JStr := ".ai-session-flow".toList

/-- `SYNC_DIR` as a path, given the home directory. -/
def syncDir (home : JPath) : JPath := home ++ [syncDirName]

/-- Embedding of `rel.startsWith('..')` (JS `String.prototype.startsWith`). -/
def startsWithDotDot (s : JStr) : Bool := List.isPrefixOf ['.', '.'] s

/-- Embedding of `mapSourceToDest` (sync-engine.js lines 148-156):

    const rel = path.relative(os.homedir(), sourcePath);
    if (rel.startsWith('..')) throw new Error(...);
    const safeRel = rel.replace(/[\\/]+/g, '__');
    if (!safeRel) return SYNC_DIR;
    return path.join(SYNC_DIR, safeRel);

The thrown error is modelled as `Except.error`; `path.join(SYNC_DIR, c)`
for a nonempty separator-free `c` appends `c` as one component. -/
def mapSourceToDest (home p : JPath) : Except JStr JPath :=
  if startsWithDotDot (pathRelative home p) then
    .error ("Source path is outside home directory and will not be synced".toList)
  else if replaceSeps (pathRelative home p) = [] then .ok (syncDir home)
  else .ok (syncDir home ++ [replaceSeps (pathRelative home p)])

/-- Whether an `Except` result is a success (JS: the call did not throw). -/
def exceptOk {ε α : Type} : Except ε α → Bool
  | .ok _ => true
  | .error _ => false

/-! Lock file and debounce model (sync-engine.js lines 54-61, 255-291).

The lock file `.sync_lock` holds JSON `{ ts, pid }`.  `shouldDebounce`
reads it: a missing file means no debounce; an unreadable/unparsable file
falls into the `catch` and means no debounce; a parsed record with a truthy
`pid` whose process is alive debounces; otherwise the trigger is debounced
exactly when the file is younger than `LOCK_WINDOW_MS`. -/

/-- `LOCK_WINDOW_MS = 10_000` (line 10). -/
def LOCK_WINDOW_MS : Nat := 10000

/-- Result of reading and JSON-parsing the lock file.  `unreadable` covers
a read or parse failure (the JS `catch` path); `noPid` a parsed object with
a missing/falsy `pid` (pid `0` is modelled by `withPid 0`, which JS also
treats as falsy); `withPid` a parsed record with its owner process id. -/
inductive LockParse where
  | unreadable
  | noPid
  | withPid (pid : Nat)
deriving DecidableEq

/-- State of the lock file on disk: absent, or present with its parse
result and its mtime (milliseconds). -/
inductive LockFile where
  | absent
  | present (rec : LockParse) (mtime : Nat)
deriving DecidableEq

/-- Embedding of `shouldDebounce` (lines 255-269).  `alive` models
`isPidAlive` (`process.kill(pid, 0)` succeeding); `now` models
`Date.now()`. -/
def shouldDebounce (now : Nat) (alive : Nat → Bool) : LockFile → Bool
  | .absent => false
  | .present .unreadable _ => false
  | .present .noPid mt => decide (now - mt < LOCK_WINDOW_MS)
  | .present (.withPid pid) mt =>
    if pid ≠ 0 && alive pid then true
    else decide (now - mt < LOCK_WINDOW_MS)

/-- State for the non-daemon `push` trigger model: the lock file and the
number of detached workers spawned so far. -/
structure TrigSt where
  lock : LockFile
  workers : Nat
deriving DecidableEq

/-- Embedding of the non-daemon branch of `handlePush` (lines 293-302)
composed with `scheduleDaemon` (lines 271-291): a debounced trigger exits
without doing anything; otherwise `scheduleDaemon` opens the lock file with
exclusive-create (`'wx'`) — if the file still exists this fails with
`EEXIST` and no worker is spawned; if creation succeeds the lock record is
written with the scheduler's pid and the detached worker is spawned. -/
def trigger (now myPid : Nat) (alive : Nat → Bool) (s : TrigSt) : TrigSt :=
  if shouldDebounce now alive s.lock then s
  else
    match s.lock with
    | .absent => { lock := .present (.withPid myPid) now, workers := s.workers + 1 }
    | .present _ _ => s

/-- The worker's lock release at the end of a successful daemon run (the
`finally` block of `handlePush`, lines 312-318): the lock file is
removed. -/
def workerFinish (s : TrigSt) : TrigSt := { s with lock := .absent }

/-! Daemon worker model (`handlePush`, sync-engine.js lines 293-319).

The daemon branch runs

    try { bootstrapRepo(); mirrorSourcesToSyncDir();
          const ok = runSecurityGate(); if (!ok) process.exit(1);
          syncToRemote(); }
    catch (error) { logAudit('ERROR', ...); }
    finally { if (fs.existsSync(LOCK_FILE)) fs.unlinkSync(LOCK_FILE); }

In Node.js, `process.exit()` terminates the process immediately without
unwinding the JavaScript stack, so `catch` and `finally` blocks on the
stack do NOT run on that path; they do run on normal completion and on a
thrown error.  The embedding models this with an explicit completion
kind. -/

/-- How a JS block completes: normally, with a thrown exception, or by
`process.exit(code)` (which skips all `catch`/`finally` unwinding). -/
inductive JsFlow where
  | norm
  | thrown
  | exited (code : Nat)
deriving DecidableEq

/-- Observable state of one detached worker run: whether the lock file is
present, whether `syncToRemote` (the only commit-creating step) was
reached, and whether the catch block logged a push failure. -/
structure DaemonSt where
  lockPresent : Bool
  ranSync : Bool
  errLogged : Bool
deriving DecidableEq

/-- Outcome of the worker pipeline up to the gate: every step succeeds and
the gate passes (`ok`); the gate fails (`gateBlock`, runSecurityGate
returned false); or some step threw (`raised`). -/
inductive PipeOutcome where
  | ok
  | gateBlock
  | raised
deriving DecidableEq

/-- `try { body } catch { onCatch } finally { fin }` under Node semantics:
`fin` runs after normal completion and after a caught exception, but a
`process.exit` inside `body` bypasses both `onCatch` and `fin`. -/
def tryCatchFinallyExit (body : DaemonSt → DaemonSt × JsFlow)
    (onCatch : DaemonSt → DaemonSt) (fin : DaemonSt → DaemonSt)
    (s : DaemonSt) : DaemonSt × JsFlow :=
  match body s with
  | (s1, .norm) => (fin s1, .norm)
  | (s1, .thrown) => (fin (onCatch s1), .norm)
  | (s1, .exited c) => (s1, .exited c)

/-- The try-block of the daemon branch (lines 304-309), abstracted over the
pipeline outcome: on success `syncToRemote` runs; on a gate block
`process.exit(1)` fires before `syncToRemote`; on an error the block
completes by throwing. -/
def daemonBody : PipeOutcome → DaemonSt → DaemonSt × JsFlow
  | .ok, s => ({ s with ranSync := true }, .norm)
  | .gateBlock, s => (s, .exited 1)
  | .raised, s => (s, .thrown)

/-- The finally-block (lines 312-318): remove the lock file. -/
def removeLock (s : DaemonSt) : DaemonSt := { s with lockPresent := false }

/-- The catch-block (lines 310-311): log the failure. -/
def logPushError (s : DaemonSt) : DaemonSt := { s with errLogged := true }

/-- Embedding of the daemon branch of `handlePush` (lines 304-319). -/
def handlePushDaemon (o : PipeOutcome) (s : DaemonSt) : DaemonSt × JsFlow :=
  tryCatchFinallyExit (daemonBody o) logPushError removeLock s

/-! Mirrored filesystem trees and `copyRecursive` (lines 158-181). -/

mutual
/-- A filesystem node as seen by `lstatSync`: a regular file (content
abstracted to a numeric identifier), a directory with named children, or a
symbolic link with its target. -/
inductive FsEntry where
  | file (data : Nat)
  | dir (children : FsEntries)
  | symlink (target : JStr)

/-- Named children of a directory, in `readdirSync` order. -/
inductive FsEntries where
  | nil
  | cons (name : JStr) (entry : FsEntry) (rest : FsEntries)
end

/-- Audit level of an entry logged during mirroring. -/
inductive AuditLvl where
  | info
  | error
deriving DecidableEq

/-- The destination containment check of lines 174-175: on normalized
component paths, `resolvedDest.startsWith(path.resolve(SYNC_DIR) +
path.sep) || resolvedDest === path.resolve(SYNC_DIR)` is exactly the
component-prefix test. -/
def insideDir (root p : JPath) : Bool := List.isPrefixOf root p

mutual
/-- Embedding of `copyRecursive(src, dest)` (lines 158-181), returning the
list of file writes `(destination, content)` performed and the audit
entries logged: a symbolic link is skipped with an INFO entry; a directory
is created and its children copied in order; a regular file is written only
after the destination passes the `SYNC_DIR` containment check, a failing
check logging an ERROR entry and skipping that single write. -/
def copyRecursive (sd : JPath) : FsEntry → JPath → List (JPath × Nat) × List AuditLvl
  | .symlink _, _ => ([], [.info])
  | .dir cs, dest => copyEntries sd cs dest
  | .file d, dest =>
    if insideDir sd dest then ([(dest, d)], []) else ([], [.error])

/-- The loop over `readdirSync(src)` in the directory case (lines
166-168). -/
def copyEntries (sd : JPath) : FsEntries → JPath → List (JPath × Nat) × List AuditLvl
  | .nil, _ => ([], [])
  | .cons n e rest, dest =>
    ((copyRecursive sd e (dest ++ [n])).1 ++ (copyEntries sd rest dest).1,
     (copyRecursive sd e (dest ++ [n])).2 ++ (copyEntries sd rest dest).2)
end

mutual
/-- Modelled from the spec: the spec-side erasure that deletes every
symbolic-link entry from a source tree.  Used only to STATE the C7 property
that mirroring neither copies nor descends into symlinks: the writes of
`copyRecursive` must coincide on a tree and on its symlink-free erasure.
A top-level symlink is erased to an empty directory (which writes
nothing). -/
def pruneSym : FsEntry → FsEntry
  | .file d => .file d
  | .symlink _ => .dir .nil
  | .dir cs => .dir (pruneSymEntries cs)

/-- Modelled from the spec: drop symlink children, recurse elsewhere. -/
def pruneSymEntries : FsEntries → FsEntries
  | .nil => .nil
  | .cons _ (.symlink _) rest => pruneSymEntries rest
  | .cons n e rest => .cons n (pruneSym e) (pruneSymEntries rest)
end

/-! Workspace filesystem as a finite map from paths to subtrees, for the
security-gate rollback (`runSecurityGate`, lines 197-226). -/

/-- Lookup in an association list of `(path, subtree)` entries. -/
def fsLookup : List (JPath × FsEntry) → JPath → Option FsEntry
  | [], _ => none
  | (k, v) :: rest, p => if k = p then some v else fsLookup rest p

/-- Remove every entry at a path. -/
def fsRemove : List (JPath × FsEntry) → JPath → List (JPath × FsEntry)
  | [], _ => []
  | (k, v) :: rest, p =>
    if k = p then fsRemove rest p else (k, v) :: fsRemove rest p

/-- `fs.renameSync(old, new)`: the subtree stored at `old` is re-keyed to
`new` (a no-op when `old` is absent, matching the guarding
`fs.existsSync`). -/
def renameEntry (fs : List (JPath × FsEntry)) (old new : JPath) :
    List (JPath × FsEntry) :=
  match fsLookup fs old with
  | some v => (new, v) :: fsRemove fs old
  | none => fs

/-- The suffix of a backup name: `` `.bak.${ts}` `` where `ts` is the
decimal rendering of `Date.now()`. -/
def bakSuffix (ts : JStr) : JStr := ".bak.".toList ++ ts

/-- `` `${p}.bak.${ts}` `` on a path string: the suffix attaches to the
last component. -/
def backupPath : JPath → JStr → JPath
  | [], ts => [bakSuffix ts]
  | [a], ts => [a ++ bakSuffix ts]
  | a :: rest, ts => a :: backupPath rest ts

/-- SourceRoot `~/.config/github-copilot/sessions` (line 13). -/
def srcCopilotCfg (home : JPath) : JPath :=
  home ++ [".config".toList, "github-copilot".toList, "sessions".toList]

/-- SourceRoot `~/.copilot/sessions` (line 14). -/
def srcCopilot (home : JPath) : JPath :=
  home ++ [".copilot".toList, "sessions".toList]

/-- SourceRoot `~/.claude/projects` (line 15). -/
def srcClaudeProj (home : JPath) : JPath :=
  home ++ [".claude".toList, "projects".toList]

/-- SourceRoot `~/.claude/sessions` (line 16). -/
def srcClaudeSess (home : JPath) : JPath :=
  home ++ [".claude".toList, "sessions".toList]

/-- The fixed source-root list `SOURCES` (lines 12-17), relative to the
home directory. -/
def SOURCES (home : JPath) : List JPath :=
  [srcCopilotCfg home, srcCopilot home, srcClaudeProj home,
   srcClaudeSess home]

/-- The flattened destination component of `srcCopilotCfg`. -/
def cCopilotCfg : JStr := ".config__github-copilot__sessions".toList

/-- The flattened destination component of `srcCopilot`. -/
def cCopilot : JStr := ".copilot__sessions".toList

/-- The flattened destination component of `srcClaudeProj`. -/
def cClaudeProj : JStr := ".claude__projects".toList

/-- The flattened destination component of `srcClaudeSess`. -/
def cClaudeSess : JStr := ".claude__sessions".toList

/-- One iteration of the rollback loop on the failure path of
`runSecurityGate` (lines 211-222), acting on the workspace map: compute the
source's mapped destination and, when it exists, rename it (not delete) to
its timestamp-suffixed backup.  `mapSourceToDest` never throws here because
every member of `SOURCES` is under the home directory; the `.error` branch
is unreachable. -/
def gateStep (home : JPath) (ts : JStr) (acc : List (JPath × FsEntry))
    (src : JPath) : List (JPath × FsEntry) :=
  match mapSourceToDest home src with
  | .ok destRoot =>
    match fsLookup acc destRoot with
    | some _ => renameEntry acc destRoot (backupPath destRoot ts)
    | none => acc
  | .error _ => acc

/-- The rename loop of lines 211-222 ONLY (the full failure path,
including the preceding `git reset --hard` / `git clean -fd`, is
`runSecurityGateFail`). -/
def gateFailBackups (home : JPath) (ts : JStr)
    (fs : List (JPath × FsEntry)) : List (JPath × FsEntry) :=
  (SOURCES home).foldl (gateStep home ts) fs

/-- Embedding of the whole failure path of `runSecurityGate`
(lines 201-224) on the workspace map.  After the SECURITY_BLOCK log,
lines 205-206 run `git reset --hard` (restore every tracked path to its
last-committed state) and `git clean -fd` (delete every untracked file and
directory): together the workspace content becomes exactly the
last-committed content `headFs`, DESTROYING the newly mirrored untracked
content (at gate time nothing has been staged yet — `git add .` only runs
later in `syncToRemote` — so all freshly mirrored content is untracked).
Only then does the rename loop of lines 211-222 move each still-existing
mapped destination to its timestamped backup. -/
def runSecurityGateFail (home : JPath) (ts : JStr)
    (headFs _fs : List (JPath × FsEntry)) : List (JPath × FsEntry) :=
  gateFailBackups home ts headFs

/-! Remote sync (`syncToRemote`, lines 228-253). -/

/-- The workspace worktree as staged by `git add .` (line 229, cwd =
`SYNC_DIR`): the mirrored session content plus the engine's own files that
live under `SYNC_DIR` and are therefore staged too — the lock file
`.sync_lock` (rewritten with a fresh `{ts, pid}` JSON by every trigger,
line 275, and removed only after `syncToRemote` by the `finally` block) and
the audit log `security-audit.log` (which gains at least the post-push
success line of line 243 on every committing run).  Contents are
abstracted to numeric identifiers and a line count. -/
structure WorkTree where
  mirrored : Nat
  lockMeta : Nat
  auditLines : Nat
deriving DecidableEq

/-- Abstract state of the workspace git repository: the worktree, the
index (staging area), and the commit history as the list of committed
trees, most recent first. -/
structure GitRepo where
  worktree : WorkTree
  index : WorkTree
  commits : List WorkTree
deriving DecidableEq

/-- Embedding of `syncToRemote` (lines 228-253): `git add .` stages the
whole worktree (including the engine's lock file and audit log, which live
under `SYNC_DIR`); `git status --porcelain` is empty exactly when the
staged tree equals the last committed tree, in which case the run ends with
no commit; otherwise the staged tree is committed and pushed, after which
line 243 appends one audit line to the worktree's audit log (that line is
not part of the commit just made).  The best-effort pull and the
opportunistic gc create no local commits in the unchanged case and are not
modelled. -/
def syncToRemote (r : GitRepo) : GitRepo :=
  if r.commits.head? = some r.worktree then { r with index := r.worktree }
  else
    { worktree := { r.worktree with auditLines := r.worktree.auditLines + 1 },
      index := r.worktree,
      commits := r.worktree :: r.commits }

/-- One complete push cycle with unchanged mirrored content: the trigger
rewrites the lock file with a fresh timestamp and pid (`scheduleDaemon`,
line 275) before the detached daemon stages and syncs. -/
def pushRun (freshLock : Nat) (r : GitRepo) : GitRepo :=
  syncToRemote { r with worktree := { r.worktree with lockMeta := freshLock } }

/-! Clean (`handleClean`, lines 332-367). -/

/-- What `lstatSync` reports for a top-level entry. -/
inductive LKind where
  | fileK
  | dirK
  | symlinkK
  | otherK
deriving DecidableEq

/-- The fate of one top-level entry under `clean`. -/
inductive CleanAction where
  | deleted
  | skippedSymlink
  | skippedOutside
  | noAction
deriving DecidableEq

/-- Embedding of the per-entry body of `handleClean` (lines 341-356): a
symbolic link is skipped with an INFO entry before any deletion; otherwise
the entry's real (symlink-resolved) path is checked against the resolved
SourceRoot — outside it the entry is skipped with an ERROR entry, inside it
a directory is removed recursively and a regular file unlinked (any other
kind is left untouched). -/
def cleanEntry (srcResolved : JPath) (k : LKind) (real : JPath) :
    CleanAction :=
  match k with
  | .symlinkK => .skippedSymlink
  | k' =>
    if insideDir srcResolved real then
      match k' with
      | .dirK => .deleted
      | .fileK => .deleted
      | _ => .noAction
    else .skippedOutside

/-! Shell-token validation (`safeShellToken`, lines 46-52) and the command
lines built by `bootstrapRepo` (lines 104-145). -/

/-- Membership in the character class `[A-Za-z0-9._/:-]`. -/
def safeTokenChar (c : Char) : Bool :=
  decide (('A' ≤ c ∧ c ≤ 'Z') ∨ ('a' ≤ c ∧ c ≤ 'z') ∨ ('0' ≤ c ∧ c ≤ '9') ∨
    c = '.' ∨ c = '_' ∨ c = '/' ∨ c = ':' ∨ c = '-')

/-- Embedding of `safeShellToken` (lines 46-52): the regex
`^[A-Za-z0-9._/:-]+$` accepts exactly the nonempty strings all of whose
characters lie in the class; anything else throws. -/
def safeShellToken (s : JStr) : Except JStr JStr :=
  if !s.isEmpty && s.all safeTokenChar then .ok s else .error s

/-- The command string `` `gh repo create ${safeShellToken(repoRef)}
--private` `` of line 108; building it throws when validation throws. -/
def buildRepoCreateCmd (repoRef : JStr) : Except JStr JStr :=
  match safeShellToken repoRef with
  | .ok t => .ok ("gh repo create ".toList ++ t ++ " --private".toList)
  | .error e => .error e

/-- The command string `` `git clone https://${safeShellToken(GIT_HOST)}/
${safeShellToken(repoRef)}.git ${safeShellToken(SYNC_DIR)}` `` of line 140,
with the three validations evaluated left to right. -/
def buildCloneCmd (host repoRef dir : JStr) : Except JStr JStr :=
  match safeShellToken host with
  | .error e => .error e
  | .ok h =>
    match safeShellToken repoRef with
    | .error e => .error e
    | .ok r =>
      match safeShellToken dir with
      | .error e => .error e
      | .ok d =>
        .ok ("git clone https://".toList ++ h ++ ['/'] ++ r ++
          ".git ".toList ++ d)

/-! Path-mapper lemmas. -/

theorem commonPrefixLen_append (h rest : JPath) :
    commonPrefixLen h (h ++ rest) = h.length := by
  induction h with
  | nil => cases rest <;> rfl
  | cons a as ih => simp [commonPrefixLen, ih]

theorem pathRelative_append (h rest : JPath) :
    pathRelative h (h ++ rest) = joinSlash rest := by
  unfold pathRelative
  rw [commonPrefixLen_append]
  simp

theorem commonPrefixLen_lt {h p : JPath} (hnp : ¬ h <+: p) :
    commonPrefixLen h p < h.length := by
  induction h generalizing p with
  | nil => exact absurd (List.nil_prefix) hnp
  | cons a as ih =>
    cases p with
    | nil => simp [commonPrefixLen]
    | cons b bs =>
      by_cases hab : a = b
      · subst hab
        have hnp' : ¬ as <+: bs := fun hp => hnp (List.cons_prefix_cons.mpr ⟨rfl, hp⟩)
        simpa [commonPrefixLen] using ih hnp'
      · simp [commonPrefixLen, hab]

theorem startsWithDotDot_joinSlash_dotdot (r : JPath) :
    startsWithDotDot (joinSlash (['.', '.'] :: r)) = true := by
  cases r <;> simp [joinSlash, startsWithDotDot, List.isPrefixOf]

/-- A path not under the home directory always produces a relative path
beginning with a parent-directory traversal. -/
theorem pathRelative_dotdot {h p : JPath} (hnp : ¬ h <+: p) :
    startsWithDotDot (pathRelative h p) = true := by
  have hk := commonPrefixLen_lt hnp
  have hdef : pathRelative h p =
      joinSlash (List.replicate (h.length - commonPrefixLen h p) ['.', '.'] ++
        p.drop (commonPrefixLen h p)) := rfl
  obtain ⟨m, hm⟩ : ∃ m, h.length - commonPrefixLen h p = m + 1 :=
    ⟨h.length - commonPrefixLen h p - 1, by omega⟩
  rw [hdef, hm, List.replicate_succ, List.cons_append]
  exact startsWithDotDot_joinSlash_dotdot _

theorem replaceSepsAux_false_nil {l : List Char} :
    replaceSepsAux false l = [] ↔ l = [] := by
  cases l with
  | nil => simp [replaceSepsAux]
  | cons c cs =>
    constructor
    · intro hc
      by_cases hs : isSep c = true
      · simp [replaceSepsAux, hs] at hc
      · simp [replaceSepsAux, hs] at hc
    · intro hc
      exact absurd hc (by simp)

/-- Separator characters never survive separator replacement: the output
consists only of underscores and non-separator input characters. -/
theorem sep_not_mem_replaceSepsAux {c : Char} (hc : isSep c = true) :
    ∀ (b : Bool) (l : List Char), c ∉ replaceSepsAux b l := by
  intro b l
  induction l generalizing b with
  | nil => simp [replaceSepsAux]
  | cons d rest ih =>
    have hcu : c ≠ '_' := by
      intro he
      rw [he] at hc
      exact absurd hc (by decide)
    by_cases hs : isSep d = true
    · cases b with
      | true => simpa [replaceSepsAux, hs] using ih true
      | false =>
        simp only [replaceSepsAux, hs, if_true]
        intro hmem
        rcases List.mem_cons.mp hmem with h1 | hmem'
        · exact hcu h1
        · rcases List.mem_cons.mp hmem' with h1 | hmem''
          · exact hcu h1
          · exact ih true hmem''
    · have hcd : c ≠ d := by
        intro he
        rw [he] at hc
        exact hs hc
      simp only [replaceSepsAux, hs, if_false]
      intro hmem
      rcases List.mem_cons.mp hmem with h1 | hmem'
      · exact hcd h1
      · exact ih false hmem'

theorem replaceSepsAux_false_singleton_dot {l : List Char}
    (h : replaceSepsAux false l = ['.']) : l = ['.'] := by
  cases l with
  | nil => simp [replaceSepsAux] at h
  | cons c cs =>
    by_cases hs : isSep c = true
    · simp [replaceSepsAux, hs] at h
    · simp [replaceSepsAux, hs] at h
      obtain ⟨hc, hcs⟩ := h
      subst hc
      have := replaceSepsAux_false_nil.mp hcs
      simp [this]

theorem replaceSepsAux_false_dotdot {l : List Char}
    (h : replaceSepsAux false l = ['.', '.']) : l = ['.', '.'] := by
  cases l with
  | nil => simp [replaceSepsAux] at h
  | cons c cs =>
    by_cases hs : isSep c = true
    · simp [replaceSepsAux, hs] at h
    · simp [replaceSepsAux, hs] at h
      obtain ⟨hc, hcs⟩ := h
      subst hc
      have := replaceSepsAux_false_singleton_dot hcs
      simp [this]

theorem joinSlash_ne_nil {hd : JStr} {tl : JPath} (h1 : hd ≠ []) :
    joinSlash (hd :: tl) ≠ [] := by
  cases tl with
  | nil => simpa [joinSlash] using h1
  | cons t ts =>
    cases hd with
    | nil => exact absurd rfl h1
    | cons c cs => simp [joinSlash]

theorem startsWithDotDot_joinSlash_false {hd : JStr} {tl : JPath}
    (h1 : hd ≠ []) (h3 : ¬ ['.', '.'] <+: hd) :
    startsWithDotDot (joinSlash (hd :: tl)) = false := by
  cases hd with
  | nil => exact absurd rfl h1
  | cons c1 cs =>
    cases cs with
    | nil =>
      cases tl with
      | nil =>
        simp only [joinSlash, startsWithDotDot]
        by_cases hc : c1 = '.' <;> simp [List.isPrefixOf, hc]
      | cons t ts =>
        simp only [joinSlash, List.cons_append, startsWithDotDot]
        by_cases hc : c1 = '.' <;> simp [List.isPrefixOf, hc]
    | cons c2 cs' =>
      have hne : ¬ (c1 = '.' ∧ c2 = '.') := by
        intro ⟨ha, hb⟩
        subst ha; subst hb
        exact h3 (by simp [List.cons_prefix_cons])
      have key : ∀ (r : List Char),
          startsWithDotDot (c1 :: c2 :: r) = false := by
        intro r
        by_cases ha : ('.' : Char) = c1
        · by_cases hb : ('.' : Char) = c2
          · exact absurd ⟨ha.symm, hb.symm⟩ hne
          · simp [startsWithDotDot, List.isPrefixOf, hb]
        · simp [startsWithDotDot, List.isPrefixOf, ha]
      cases tl with
      | nil => simpa [joinSlash] using key cs'
      | cons t ts => simpa [joinSlash] using key (cs' ++ '/' :: joinSlash (t :: ts))

theorem joinSlash_eq_dot {hd : JStr} {tl : JPath} (h1 : hd ≠ [])
    (h : joinSlash (hd :: tl) = ['.']) : hd = ['.'] ∧ tl = [] := by
  cases tl with
  | nil => exact ⟨h, rfl⟩
  | cons t ts =>
    exfalso
    have hlen := congrArg List.length h
    simp [joinSlash] at hlen
    have : 1 ≤ hd.length := List.length_pos.mpr h1
    omega

theorem joinSlash_eq_dotdot {hd : JStr} {tl : JPath} (h1 : hd ≠ [])
    (h : joinSlash (hd :: tl) = ['.', '.']) : hd = ['.', '.'] ∧ tl = [] := by
  cases tl with
  | nil => exact ⟨h, rfl⟩
  | cons t ts =>
    exfalso
    have hlen := congrArg List.length h
    simp [joinSlash] at hlen
    have hp : 1 ≤ hd.length := List.length_pos.mpr h1
    have hd1 : hd.length = 1 := by omega
    obtain ⟨c, hc⟩ := List.length_eq_one.mp hd1
    subst hc
    have hjs : joinSlash (t :: ts) = [] := by
      have := congrArg List.length h
      simp [joinSlash] at this
      exact List.length_eq_zero.mp (by omega)
    simp [joinSlash, hjs] at h

/-- In-scope behavior of the path mapper: a proper descendant of the home
directory whose first relative component is nonempty, not `.`, and does not
begin with the two characters `..`, maps to a single well-formed component
directly under `SYNC_DIR`. -/
theorem mapSourceToDest_in_scope (home : JPath) (hd : JStr) (tl : JPath)
    (h1 : hd ≠ []) (h2 : hd ≠ ['.']) (h3 : ¬ ['.', '.'] <+: hd) :
    ∃ c, mapSourceToDest home (home ++ hd :: tl) = .ok (syncDir home ++ [c]) ∧
      c ≠ [] ∧ c ≠ ['.'] ∧ c ≠ ['.', '.'] ∧ '/' ∉ c ∧ '\\' ∉ c := by
  have hrel : pathRelative home (home ++ hd :: tl) = joinSlash (hd :: tl) :=
    pathRelative_append home (hd :: tl)
  have hsw : startsWithDotDot (joinSlash (hd :: tl)) = false :=
    startsWithDotDot_joinSlash_false h1 h3
  have hcne : replaceSeps (joinSlash (hd :: tl)) ≠ [] := by
    intro he
    exact joinSlash_ne_nil h1 (replaceSepsAux_false_nil.mp he)
  refine ⟨replaceSeps (joinSlash (hd :: tl)), ?_, hcne, ?_, ?_,
    sep_not_mem_replaceSepsAux (by decide) false _,
    sep_not_mem_replaceSepsAux (by decide) false _⟩
  · have hcne' : replaceSepsAux false (joinSlash (hd :: tl)) ≠ [] := hcne
    unfold mapSourceToDest
    rw [hrel, hsw]
    simp [replaceSeps, hcne']
  · intro he
    obtain ⟨hh, _⟩ := joinSlash_eq_dot h1 (replaceSepsAux_false_singleton_dot he)
    exact h2 hh
  · intro he
    obtain ⟨hh, _⟩ := joinSlash_eq_dotdot h1 (replaceSepsAux_false_dotdot he)
    subst hh
    exact h3 (List.prefix_refl _)

/-- Out-of-scope behavior of the path mapper: any path not under the home
directory is rejected (the JS function throws). -/
theorem mapSourceToDest_out_of_scope (home p : JPath) (hnp : ¬ home <+: p) :
    exceptOk (mapSourceToDest home p) = false := by
  unfold mapSourceToDest
  rw [pathRelative_dotdot hnp]
  rfl


/-- C4 counterexample: the absolute path `/u/..f` lies under the home
directory `/u` (the home path is a proper prefix of it), yet
`mapSourceToDest` rejects it with the out-of-scope error instead of
returning a destination, because the relative path `..f` satisfies
`rel.startsWith('..')`.  This refutes the claim that every absolute path
under the home directory is mapped to a destination. -/
theorem mapper_under_home_rejected_cex :
    [['u']] <+: [['u'], ['.', '.', 'f']] ∧
    [['u'], ['.', '.', 'f']] ≠ [['u']] ∧
    exceptOk (mapSourceToDest [['u']] [['u'], ['.', '.', 'f']]) = false := by
  refine ⟨⟨[['.', '.', 'f']], rfl⟩, by decide, by rfl⟩

/-- C4 (amended): for every absolute path strictly under the home directory
whose first relative component is nonempty, is not `.`, and does not begin
with the literal character pair `..`, the path mapper returns a destination
that resolves strictly inside the workspace directory (one additional
well-formed, separator-free component under `SYNC_DIR`); for every absolute
path not under the home directory (and also for the in-scope paths whose
first relative component begins with `..`, as the counterexample shows),
it fails with the out-of-scope error instead of returning a destination. -/
theorem mapper_scope_amended :
    (∀ (home : JPath) (hd : JStr) (tl : JPath),
      hd ≠ [] → hd ≠ ['.'] → ¬ ['.', '.'] <+: hd →
      ∃ c, mapSourceToDest home (home ++ hd :: tl) = .ok (syncDir home ++ [c]) ∧
        c ≠ [] ∧ c ≠ ['.'] ∧ c ≠ ['.', '.'] ∧ '/' ∉ c ∧ '\\' ∉ c) ∧
    (∀ (home p : JPath), ¬ home <+: p →
      exceptOk (mapSourceToDest home p) = false) :=
  ⟨fun home hd tl h1 h2 h3 => mapSourceToDest_in_scope home hd tl h1 h2 h3,
   fun home p hnp => mapSourceToDest_out_of_scope home p hnp⟩

/-- C4 witness: the amended theorem applied at the concrete in-scope path
`/u/sessions` and at the concrete out-of-scope path `/v`. -/
theorem mapper_scope_amended_witness :
    (∃ c, mapSourceToDest [['u']] [['u'], ['s', 'x']] =
        .ok (syncDir [['u']] ++ [c]) ∧
      c ≠ [] ∧ c ≠ ['.'] ∧ c ≠ ['.', '.'] ∧ '/' ∉ c ∧ '\\' ∉ c) ∧
    exceptOk (mapSourceToDest [['u']] [['v']]) = false :=
  ⟨mapper_scope_amended.1 [['u']] ['s', 'x'] [] (by decide) (by decide)
      (by decide),
   mapper_scope_amended.2 [['u']] [['v']] (by decide)⟩

/-- C5 counterexample: the two distinct in-scope paths `/u/a__b` and
`/u/a/b` (both under the home directory `/u`, both mapped successfully)
collide on the same destination, because the separator flattening turns
`a/b` into `a__b`.  This refutes the claimed injectivity of the mapping on
in-scope paths. -/
theorem mapper_injectivity_cex :
    [['u']] <+: [['u'], ['a', '_', '_', 'b']] ∧
    [['u']] <+: [['u'], ['a'], ['b']] ∧
    [['u'], ['a', '_', '_', 'b']] ≠ [['u'], ['a'], ['b']] ∧
    exceptOk (mapSourceToDest [['u']] [['u'], ['a', '_', '_', 'b']]) = true ∧
    mapSourceToDest [['u']] [['u'], ['a', '_', '_', 'b']] =
      mapSourceToDest [['u']] [['u'], ['a'], ['b']] := by
  refine ⟨⟨[['a', '_', '_', 'b']], rfl⟩, ⟨[['a'], ['b']], rfl⟩, by decide,
    by rfl, by rfl⟩

/-- C5 (amended): the path mapping is deterministic (equal inputs give
equal outputs — definitional for the pure embedded function), but it is NOT
injective on in-scope paths: there exist two distinct absolute paths under
the home directory on which `mapSourceToDest` succeeds yet returns the same
destination. -/
theorem mapper_deterministic_not_injective :
    (∀ (home p q : JPath), p = q →
      mapSourceToDest home p = mapSourceToDest home q) ∧
    (∃ (home p q : JPath), home <+: p ∧ home <+: q ∧ p ≠ q ∧
      exceptOk (mapSourceToDest home p) = true ∧
      mapSourceToDest home p = mapSourceToDest home q) :=
  ⟨fun _ _ _ h => by rw [h],
   ⟨[['u']], [['u'], ['a', '_', '_', 'b']], [['u'], ['a'], ['b']],
     ⟨[['a', '_', '_', 'b']], rfl⟩, ⟨[['a'], ['b']], rfl⟩, by decide,
     by rfl, by rfl⟩⟩

/-- C5 witness: the determinism half of the amended theorem applied at a
concrete input. -/
theorem mapper_deterministic_not_injective_witness :
    mapSourceToDest [['u']] [['u'], ['a']] =
      mapSourceToDest [['u']] [['u'], ['a']] :=
  mapper_deterministic_not_injective.1 [['u']] [['u'], ['a']] [['u'], ['a']]
    rfl

/-! Workspace-map lemmas for the security-gate rollback. -/

theorem fsLookup_fsRemove_self (fs : List (JPath × FsEntry)) (p : JPath) :
    fsLookup (fsRemove fs p) p = none := by
  induction fs with
  | nil => rfl
  | cons kv rest ih =>
    obtain ⟨k, v⟩ := kv
    by_cases h : k = p
    · simp [fsRemove, h, ih]
    · simp [fsRemove, fsLookup, h, ih]

theorem fsLookup_fsRemove_ne (fs : List (JPath × FsEntry)) {p q : JPath}
    (h : p ≠ q) : fsLookup (fsRemove fs p) q = fsLookup fs q := by
  induction fs with
  | nil => rfl
  | cons kv rest ih =>
    obtain ⟨k, v⟩ := kv
    by_cases hk : k = p
    · subst hk
      simp [fsRemove, fsLookup, h, ih]
    · by_cases hq : k = q
      · subst hq
        simp [fsRemove, fsLookup, hk]
      · simp [fsRemove, fsLookup, hk, hq, ih]

theorem fsLookup_renameEntry_other (fs : List (JPath × FsEntry))
    {old new q : JPath} (h1 : old ≠ q) (h2 : new ≠ q) :
    fsLookup (renameEntry fs old new) q = fsLookup fs q := by
  unfold renameEntry
  cases h : fsLookup fs old with
  | none => rfl
  | some v => simp [fsLookup, h2, fsLookup_fsRemove_ne fs h1]

theorem fsLookup_renameEntry_old (fs : List (JPath × FsEntry))
    {old new : JPath} {v : FsEntry} (h : fsLookup fs old = some v)
    (hne : new ≠ old) :
    fsLookup (renameEntry fs old new) old = none := by
  unfold renameEntry
  rw [h]
  simp [fsLookup, hne, fsLookup_fsRemove_self]

theorem fsLookup_renameEntry_new (fs : List (JPath × FsEntry))
    {old new : JPath} {v : FsEntry} (h : fsLookup fs old = some v) :
    fsLookup (renameEntry fs old new) new = some v := by
  unfold renameEntry
  rw [h]
  simp [fsLookup]

theorem backupPath_concat (xs : JPath) (a : JStr) (ts : JStr) :
    backupPath (xs ++ [a]) ts = xs ++ [a ++ bakSuffix ts] := by
  induction xs with
  | nil => rfl
  | cons x xs' ih =>
    cases xs' with
    | nil => rfl
    | cons y ys =>
      simp only [List.cons_append, List.append_eq, backupPath] at ih ⊢
      rw [ih]

/-- Cancellation on the right for list append. -/
theorem append_cancel_of_eq {a b s : JStr} (h : a ++ s = b ++ s) : a = b := by
  have hlen : a.length = b.length := by
    have := congrArg List.length h
    simp at this
    omega
  exact (List.append_inj h hlen).1

/-- A component with the backup suffix attached never equals a component
that the suffixed one is no prefix of (used for key distinctness). -/
theorem bak_component_ne {ci cj : JStr} (ts : JStr)
    (h : ¬ (ci ++ ".bak.".toList) <+: cj) : ci ++ bakSuffix ts ≠ cj := by
  intro he
  apply h
  refine ⟨ts, ?_⟩
  rw [List.append_assoc]
  exact he

theorem syncKey_ne (home : JPath) {ci cj : JStr} (h : ci ≠ cj) :
    syncDir home ++ [ci] ≠ syncDir home ++ [cj] := by
  intro he
  have h1 : ([ci] : JPath) = [cj] := List.append_cancel_left he
  exact h (by simpa using h1)

/-- The per-source destinations of the four configured SourceRoots. -/
theorem mapSourceToDest_sources (home : JPath) :
    mapSourceToDest home (srcCopilotCfg home) =
      .ok (syncDir home ++ [cCopilotCfg]) ∧
    mapSourceToDest home (srcCopilot home) =
      .ok (syncDir home ++ [cCopilot]) ∧
    mapSourceToDest home (srcClaudeProj home) =
      .ok (syncDir home ++ [cClaudeProj]) ∧
    mapSourceToDest home (srcClaudeSess home) =
      .ok (syncDir home ++ [cClaudeSess]) := by
  refine ⟨?_, ?_, ?_, ?_⟩ <;>
    (simp only [srcCopilotCfg, srcCopilot, srcClaudeProj, srcClaudeSess,
        mapSourceToDest]
     rw [pathRelative_append]
     rfl)

/-- Unfolding of `gateStep` at a source with a known mapped destination. -/
theorem gateStep_ok (home : JPath) (ts : JStr)
    (acc : List (JPath × FsEntry)) (src : JPath) (k : JPath)
    (hm : mapSourceToDest home src = .ok k) :
    gateStep home ts acc src =
      match fsLookup acc k with
      | some _ => renameEntry acc k (backupPath k ts)
      | none => acc := by
  unfold gateStep
  rw [hm]

/-- A gate-rollback step at a source whose destination component differs
from `ci` (and whose backup cannot collide with `ci` or its backup)
preserves lookups at `ci`'s key and at `ci`'s backup key. -/
theorem gateStep_preserve_both (home : JPath) (ts : JStr)
    (acc : List (JPath × FsEntry)) (src : JPath) (ci cj : JStr)
    (hm : mapSourceToDest home src = .ok (syncDir home ++ [cj]))
    (hne : cj ≠ ci)
    (hpreA : ¬ (cj ++ ".bak.".toList) <+: ci)
    (hpreB : ¬ (ci ++ ".bak.".toList) <+: cj) :
    fsLookup (gateStep home ts acc src) (syncDir home ++ [ci]) =
      fsLookup acc (syncDir home ++ [ci]) ∧
    fsLookup (gateStep home ts acc src) (syncDir home ++ [ci ++ bakSuffix ts]) =
      fsLookup acc (syncDir home ++ [ci ++ bakSuffix ts]) := by
  rw [gateStep_ok home ts acc src _ hm]
  cases hl : fsLookup acc (syncDir home ++ [cj]) with
  | none => exact ⟨rfl, rfl⟩
  | some v =>
    rw [backupPath_concat]
    constructor
    · exact fsLookup_renameEntry_other acc (syncKey_ne home hne)
        (syncKey_ne home (bak_component_ne ts hpreA))
    · refine fsLookup_renameEntry_other acc (syncKey_ne home ?_)
        (syncKey_ne home ?_)
      · intro he
        exact (bak_component_ne ts hpreB) he.symm
      · intro he
        have := append_cancel_of_eq he
        exact hne this

/-- The gate-rollback step at a source whose mapped destination exists in
the workspace: afterwards the destination key is gone and the subtree is
stored intact at the backup key. -/
theorem gateStep_self (home : JPath) (ts : JStr)
    (acc : List (JPath × FsEntry)) (src : JPath) (ci : JStr) (t : FsEntry)
    (hm : mapSourceToDest home src = .ok (syncDir home ++ [ci]))
    (hpre : ¬ (ci ++ ".bak.".toList) <+: ci)
    (hl : fsLookup acc (syncDir home ++ [ci]) = some t) :
    fsLookup (gateStep home ts acc src) (syncDir home ++ [ci]) = none ∧
    fsLookup (gateStep home ts acc src) (syncDir home ++ [ci ++ bakSuffix ts]) =
      some t := by
  rw [gateStep_ok home ts acc src _ hm, hl, backupPath_concat]
  constructor
  · exact fsLookup_renameEntry_old acc hl
      (syncKey_ne home (bak_component_ne ts hpre))
  · exact fsLookup_renameEntry_new acc hl

/-- Lookups at a component key and at its backup key are preserved by any
run of gate-rollback steps over sources all of whose destination components
differ from `ci` and cannot collide with `ci` or its backup. -/
theorem gateSteps_preserve (home : JPath) (ts : JStr) (srcs : List JPath)
    (acc : List (JPath × FsEntry)) (ci : JStr)
    (h : ∀ src ∈ srcs, ∃ cj,
      mapSourceToDest home src = .ok (syncDir home ++ [cj]) ∧
      cj ≠ ci ∧ ¬ (cj ++ ".bak.".toList) <+: ci ∧
      ¬ (ci ++ ".bak.".toList) <+: cj) :
    fsLookup (srcs.foldl (gateStep home ts) acc) (syncDir home ++ [ci]) =
      fsLookup acc (syncDir home ++ [ci]) ∧
    fsLookup (srcs.foldl (gateStep home ts) acc)
        (syncDir home ++ [ci ++ bakSuffix ts]) =
      fsLookup acc (syncDir home ++ [ci ++ bakSuffix ts]) := by
  induction srcs generalizing acc with
  | nil => exact ⟨rfl, rfl⟩
  | cons s ss ih =>
    obtain ⟨cj, hm, h1, h2, h3⟩ := h s (List.mem_cons_self s ss)
    have P := gateStep_preserve_both home ts acc s ci cj hm h1 h2 h3
    have IH := ih (gateStep home ts acc s)
      (fun src hs => h src (List.mem_cons_of_mem s hs))
    exact ⟨IH.1.trans P.1, IH.2.trans P.2⟩

/-- C1: on the daemon worker's security-gate-block exit path the lock file
is NOT removed.  The code's `finally` block is intended to guarantee lock
release, but `process.exit(1)` on the gate-block path (line 308) terminates
the Node process without unwinding the stack, so the `finally` block never
runs there and the lock file remains; on the normal-completion and
thrown-error paths the `finally` block does run and removes the lock.  This
contradicts the claim (and the spec's guaranteed-cleanup intent) that the
lock file is absent after every worker exit, including a security block. -/
theorem worker_lock_gateblock_bug :
    (handlePushDaemon .gateBlock ⟨true, false, false⟩).1.lockPresent = true ∧
    (handlePushDaemon .gateBlock ⟨true, false, false⟩).2 = .exited 1 ∧
    (∀ (s : DaemonSt), (handlePushDaemon .ok s).1.lockPresent = false) ∧
    (∀ (s : DaemonSt), (handlePushDaemon .raised s).1.lockPresent = false) :=
  ⟨rfl, rfl, fun _ => rfl, fun _ => rfl⟩

/-- The gate-rollback step at a source whose mapped destination does not
exist in the workspace is a no-op (the `fs.existsSync` guard). -/
theorem gateStep_absent (home : JPath) (ts : JStr)
    (acc : List (JPath × FsEntry)) (src : JPath) (k : JPath)
    (hm : mapSourceToDest home src = .ok k)
    (hl : fsLookup acc k = none) :
    gateStep home ts acc src = acc := by
  rw [gateStep_ok home ts acc src _ hm, hl]

/-- Behavior of the whole rename loop at the mapped destination of any one
configured SourceRoot, over the post-reset/clean workspace content
`headFs`: a destination present in `headFs` is renamed to its backup; a
destination absent from `headFs` stays absent, and (provided `headFs` does
not already hold its backup name) no backup of it appears either. -/
theorem gateFailBackups_cases (home : JPath) (ts : JStr)
    (headFs : List (JPath × FsEntry)) (src : JPath)
    (hsrc : src ∈ SOURCES home) (d : JPath)
    (hd : mapSourceToDest home src = .ok d) :
    (∀ (t : FsEntry), fsLookup headFs d = some t →
      fsLookup (gateFailBackups home ts headFs) d = none ∧
      fsLookup (gateFailBackups home ts headFs) (backupPath d ts) = some t) ∧
    (fsLookup headFs d = none →
      fsLookup headFs (backupPath d ts) = none →
      fsLookup (gateFailBackups home ts headFs) d = none ∧
      fsLookup (gateFailBackups home ts headFs) (backupPath d ts) = none) := by
  obtain ⟨hm1, hm2, hm3, hm4⟩ := mapSourceToDest_sources home
  simp only [SOURCES, List.mem_cons, List.not_mem_nil, or_false] at hsrc
  rcases hsrc with hs | hs | hs | hs
  · subst hs
    rw [hm1] at hd
    injection hd with hd'
    subst hd'
    have hfold : gateFailBackups home ts headFs =
        List.foldl (gateStep home ts)
          (gateStep home ts
            (List.foldl (gateStep home ts) headFs [])
            (srcCopilotCfg home))
          [srcCopilot home, srcClaudeProj home, srcClaudeSess home] := rfl
    have HPre := gateSteps_preserve home ts [] headFs cCopilotCfg
      (by intro s hs'; exact absurd hs' (List.not_mem_nil s))
    have HPost := gateSteps_preserve home ts
      [srcCopilot home, srcClaudeProj home, srcClaudeSess home]
      (gateStep home ts (List.foldl (gateStep home ts) headFs [])
        (srcCopilotCfg home))
      cCopilotCfg
      (by
        intro s hs'
        simp only [List.mem_cons, List.not_mem_nil, or_false] at hs'
        rcases hs' with h' | h' | h'
        · subst h'
          exact ⟨cCopilot, hm2, by decide, by decide, by decide⟩
        · subst h'
          exact ⟨cClaudeProj, hm3, by decide, by decide, by decide⟩
        · subst h'
          exact ⟨cClaudeSess, hm4, by decide, by decide, by decide⟩)
    constructor
    · intro t ht
      have S := gateStep_self home ts
        (List.foldl (gateStep home ts) headFs []) (srcCopilotCfg home)
        cCopilotCfg t hm1 (by decide) (HPre.1.trans ht)
      rw [hfold, backupPath_concat]
      exact ⟨HPost.1.trans S.1, HPost.2.trans S.2⟩
    · intro hn hb
      rw [backupPath_concat] at hb
      have E := gateStep_absent home ts
        (List.foldl (gateStep home ts) headFs []) (srcCopilotCfg home)
        (syncDir home ++ [cCopilotCfg]) hm1 (HPre.1.trans hn)
      rw [hfold, backupPath_concat]
      constructor
      · rw [HPost.1, E]
        exact HPre.1.trans hn
      · rw [HPost.2, E]
        exact HPre.2.trans hb
  · subst hs
    rw [hm2] at hd
    injection hd with hd'
    subst hd'
    have hfold : gateFailBackups home ts headFs =
        List.foldl (gateStep home ts)
          (gateStep home ts
            (List.foldl (gateStep home ts) headFs [srcCopilotCfg home])
            (srcCopilot home))
          [srcClaudeProj home, srcClaudeSess home] := rfl
    have HPre := gateSteps_preserve home ts [srcCopilotCfg home] headFs
      cCopilot
      (by
        intro s hs'
        simp only [List.mem_cons, List.not_mem_nil, or_false] at hs'
        subst hs'
        exact ⟨cCopilotCfg, hm1, by decide, by decide, by decide⟩)
    have HPost := gateSteps_preserve home ts
      [srcClaudeProj home, srcClaudeSess home]
      (gateStep home ts
        (List.foldl (gateStep home ts) headFs [srcCopilotCfg home])
        (srcCopilot home))
      cCopilot
      (by
        intro s hs'
        simp only [List.mem_cons, List.not_mem_nil, or_false] at hs'
        rcases hs' with h' | h'
        · subst h'
          exact ⟨cClaudeProj, hm3, by decide, by decide, by decide⟩
        · subst h'
          exact ⟨cClaudeSess, hm4, by decide, by decide, by decide⟩)
    constructor
    · intro t ht
      have S := gateStep_self home ts
        (List.foldl (gateStep home ts) headFs [srcCopilotCfg home])
        (srcCopilot home) cCopilot t hm2 (by decide) (HPre.1.trans ht)
      rw [hfold, backupPath_concat]
      exact ⟨HPost.1.trans S.1, HPost.2.trans S.2⟩
    · intro hn hb
      rw [backupPath_concat] at hb
      have E := gateStep_absent home ts
        (List.foldl (gateStep home ts) headFs [srcCopilotCfg home])
        (srcCopilot home) (syncDir home ++ [cCopilot]) hm2
        (HPre.1.trans hn)
      rw [hfold, backupPath_concat]
      constructor
      · rw [HPost.1, E]
        exact HPre.1.trans hn
      · rw [HPost.2, E]
        exact HPre.2.trans hb
  · subst hs
    rw [hm3] at hd
    injection hd with hd'
    subst hd'
    have hfold : gateFailBackups home ts headFs =
        List.foldl (gateStep home ts)
          (gateStep home ts
            (List.foldl (gateStep home ts) headFs
              [srcCopilotCfg home, srcCopilot home])
            (srcClaudeProj home))
          [srcClaudeSess home] := rfl
    have HPre := gateSteps_preserve home ts
      [srcCopilotCfg home, srcCopilot home] headFs cClaudeProj
      (by
        intro s hs'
        simp only [List.mem_cons, List.not_mem_nil, or_false] at hs'
        rcases hs' with h' | h'
        · subst h'
          exact ⟨cCopilotCfg, hm1, by decide, by decide, by decide⟩
        · subst h'
          exact ⟨cCopilot, hm2, by decide, by decide, by decide⟩)
    have HPost := gateSteps_preserve home ts [srcClaudeSess home]
      (gateStep home ts
        (List.foldl (gateStep home ts) headFs
          [srcCopilotCfg home, srcCopilot home])
        (srcClaudeProj home))
      cClaudeProj
      (by
        intro s hs'
        simp only [List.mem_cons, List.not_mem_nil, or_false] at hs'
        subst hs'
        exact ⟨cClaudeSess, hm4, by decide, by decide, by decide⟩)
    constructor
    · intro t ht
      have S := gateStep_self home ts
        (List.foldl (gateStep home ts) headFs
          [srcCopilotCfg home, srcCopilot home])
        (srcClaudeProj home) cClaudeProj t hm3 (by decide)
        (HPre.1.trans ht)
      rw [hfold, backupPath_concat]
      exact ⟨HPost.1.trans S.1, HPost.2.trans S.2⟩
    · intro hn hb
      rw [backupPath_concat] at hb
      have E := gateStep_absent home ts
        (List.foldl (gateStep home ts) headFs
          [srcCopilotCfg home, srcCopilot home])
        (srcClaudeProj home) (syncDir home ++ [cClaudeProj]) hm3
        (HPre.1.trans hn)
      rw [hfold, backupPath_concat]
      constructor
      · rw [HPost.1, E]
        exact HPre.1.trans hn
      · rw [HPost.2, E]
        exact HPre.2.trans hb
  · subst hs
    rw [hm4] at hd
    injection hd with hd'
    subst hd'
    have hfold : gateFailBackups home ts headFs =
        List.foldl (gateStep home ts)
          (gateStep home ts
            (List.foldl (gateStep home ts) headFs
              [srcCopilotCfg home, srcCopilot home, srcClaudeProj home])
            (srcClaudeSess home))
          [] := rfl
    have HPre := gateSteps_preserve home ts
      [srcCopilotCfg home, srcCopilot home, srcClaudeProj home] headFs
      cClaudeSess
      (by
        intro s hs'
        simp only [List.mem_cons, List.not_mem_nil, or_false] at hs'
        rcases hs' with h' | h' | h'
        · subst h'
          exact ⟨cCopilotCfg, hm1, by decide, by decide, by decide⟩
        · subst h'
          exact ⟨cCopilot, hm2, by decide, by decide, by decide⟩
        · subst h'
          exact ⟨cClaudeProj, hm3, by decide, by decide, by decide⟩)
    have HPost := gateSteps_preserve home ts []
      (gateStep home ts
        (List.foldl (gateStep home ts) headFs
          [srcCopilotCfg home, srcCopilot home, srcClaudeProj home])
        (srcClaudeSess home))
      cClaudeSess
      (by intro s hs'; exact absurd hs' (List.not_mem_nil s))
    constructor
    · intro t ht
      have S := gateStep_self home ts
        (List.foldl (gateStep home ts) headFs
          [srcCopilotCfg home, srcCopilot home, srcClaudeProj home])
        (srcClaudeSess home) cClaudeSess t hm4 (by decide)
        (HPre.1.trans ht)
      rw [hfold, backupPath_concat]
      exact ⟨HPost.1.trans S.1, HPost.2.trans S.2⟩
    · intro hn hb
      rw [backupPath_concat] at hb
      have E := gateStep_absent home ts
        (List.foldl (gateStep home ts) headFs
          [srcCopilotCfg home, srcCopilot home, srcClaudeProj home])
        (srcClaudeSess home) (syncDir home ++ [cClaudeSess]) hm4
        (HPre.1.trans hn)
      rw [hfold, backupPath_concat]
      constructor
      · rw [HPost.1, E]
        exact HPre.1.trans hn
      · rw [HPost.2, E]
        exact HPre.2.trans hb

/-- C2 counterexample: a fresh clone (`headFs = []`, the mapped destination
of `~/.claude/sessions` is not tracked) into which the offending file
`file 7` has just been mirrored.  The claim says the destination directory,
which exists at gate time, is renamed — not deleted — so the offending
content is preserved.  In the program, `git reset --hard` and
`git clean -fd` (lines 205-206) run BEFORE the rename loop and delete the
untracked newly mirrored content: the failure path leaves the workspace
empty, the destination is gone, and no backup of it exists — the offending
content is destroyed, not preserved. -/
theorem gate_block_preservation_cex :
    fsLookup [([['u'], syncDirName, ".claude__sessions".toList],
        FsEntry.file 7)]
      [['u'], syncDirName, ".claude__sessions".toList] =
      some (.file 7) ∧
    mapSourceToDest [['u']] (srcClaudeSess [['u']]) =
      .ok [['u'], syncDirName, ".claude__sessions".toList] ∧
    runSecurityGateFail [['u']] ['9'] []
      [([['u'], syncDirName, ".claude__sessions".toList],
        FsEntry.file 7)] = [] ∧
    fsLookup
      (runSecurityGateFail [['u']] ['9'] []
        [([['u'], syncDirName, ".claude__sessions".toList],
          FsEntry.file 7)])
      (backupPath [['u'], syncDirName, ".claude__sessions".toList] ['9']) =
      none :=
  ⟨rfl, rfl, rfl, rfl⟩

/-- C2 (amended): when the security gate fails, `syncToRemote` — the only
commit-creating step — is never reached, so no commit is created in that
run; but the rollback first runs `git reset --hard` and `git clean -fd`,
which restore tracked content to its last-committed state and DELETE the
untracked newly mirrored content.  The rename loop then renames — not
deletes — every SourceRoot's mapped destination that still exists (i.e.
that exists in the last-committed state) to its timestamp-suffixed backup,
preserving that last-committed subtree out-of-band; a destination absent
from the last-committed state (the freshly mirrored case) ends up neither
present nor backed up: the newly mirrored offending content is destroyed
rather than preserved. -/
theorem gate_block_rollback_amended :
    (∀ (home : JPath) (ts : JStr) (headFs fs : List (JPath × FsEntry))
      (src : JPath), src ∈ SOURCES home →
      ∀ (d : JPath), mapSourceToDest home src = .ok d →
      ∀ (t : FsEntry), fsLookup headFs d = some t →
        fsLookup (runSecurityGateFail home ts headFs fs) d = none ∧
        fsLookup (runSecurityGateFail home ts headFs fs)
          (backupPath d ts) = some t) ∧
    (∀ (home : JPath) (ts : JStr) (headFs fs : List (JPath × FsEntry))
      (src : JPath), src ∈ SOURCES home →
      ∀ (d : JPath), mapSourceToDest home src = .ok d →
      fsLookup headFs d = none →
      fsLookup headFs (backupPath d ts) = none →
        fsLookup (runSecurityGateFail home ts headFs fs) d = none ∧
        fsLookup (runSecurityGateFail home ts headFs fs)
          (backupPath d ts) = none) ∧
    (∀ (s : DaemonSt),
      (handlePushDaemon .gateBlock s).1.ranSync = s.ranSync) := by
  refine ⟨?_, ?_, fun s => rfl⟩
  · intro home ts headFs fs src hsrc d hd t ht
    exact (gateFailBackups_cases home ts headFs src hsrc d hd).1 t ht
  · intro home ts headFs fs src hsrc d hd hn hb
    exact (gateFailBackups_cases home ts headFs src hsrc d hd).2 hn hb

/-- C2 witness: the amended theorem applied at concrete inputs — a tracked
destination (`file 5` committed at the mapped key of `~/.claude/sessions`)
is moved to its timestamped backup and removed from its key, while an
untracked destination over an empty last-committed state is simply gone,
with no backup. -/
theorem gate_block_rollback_amended_witness :
    (fsLookup
      (runSecurityGateFail [['u']] ['9']
        [([['u'], syncDirName, ".claude__sessions".toList], .file 5)] [])
      [['u'], syncDirName, ".claude__sessions".toList] = none ∧
    fsLookup
      (runSecurityGateFail [['u']] ['9']
        [([['u'], syncDirName, ".claude__sessions".toList], .file 5)] [])
      (backupPath [['u'], syncDirName, ".claude__sessions".toList] ['9']) =
      some (.file 5)) ∧
    (fsLookup (runSecurityGateFail [['u']] ['9'] [] [])
      [['u'], syncDirName, ".claude__sessions".toList] = none ∧
    fsLookup (runSecurityGateFail [['u']] ['9'] [] [])
      (backupPath [['u'], syncDirName, ".claude__sessions".toList] ['9']) =
      none) :=
  ⟨gate_block_rollback_amended.1 [['u']] ['9']
    [([['u'], syncDirName, ".claude__sessions".toList], .file 5)] []
    (srcClaudeSess [['u']]) (by simp [SOURCES])
    [['u'], syncDirName, ".claude__sessions".toList]
    (by rfl) (.file 5) (by rfl),
   gate_block_rollback_amended.2.1 [['u']] ['9'] [] []
    (srcClaudeSess [['u']]) (by simp [SOURCES])
    [['u'], syncDirName, ".claude__sessions".toList]
    (by rfl) (by rfl) (by rfl)⟩


/-- C3 counterexample: the claim fails in two ways on the code.  First, a
lock record whose owning process is dead (pid 42, `alive` constantly false)
but whose file is only 5 seconds old still debounces a new push trigger —
`shouldDebounce` returns `true` and the trigger spawns no worker — so a
dead owner does not make the record stale while it is younger than the
window.  Second, even once the same dead-owner record is OLDER than the
window (15 seconds), `shouldDebounce` does return `false`, yet the trigger
STILL spawns no worker: `scheduleDaemon`'s exclusive-create `openSync(...,
'wx')` fails with `EEXIST` on the persisting lock file, which is left in
place — so two triggers more than the window apart with the first's
process dead do NOT each spawn a worker while the first's lock file
persists, and the stale lock is never reclaimed. -/
theorem lock_debounce_cex :
    shouldDebounce 5000 (fun _ => false) (.present (.withPid 42) 0) = true ∧
    (trigger 5000 7 (fun _ => false)
      ⟨.present (.withPid 42) 0, 1⟩).workers = 1 ∧
    shouldDebounce 15000 (fun _ => false) (.present (.withPid 42) 0) =
      false ∧
    (trigger 15000 7 (fun _ => false)
      ⟨.present (.withPid 42) 0, 1⟩).workers = 1 ∧
    (trigger 15000 7 (fun _ => false)
      ⟨.present (.withPid 42) 0, 1⟩).lock = .present (.withPid 42) 0 := by
  refine ⟨rfl, rfl, rfl, rfl, rfl⟩

/-- C3 (amended): a lock record whose owner is alive always debounces; a
record whose owner is dead debounces exactly when it is younger than the
10-second window.  Passing the debounce check never reclaims the lock:
while ANY lock file persists, `scheduleDaemon`'s exclusive create fails
with `EEXIST` and a trigger spawns nothing and changes nothing — in
particular a stale record (dead owner, age at least the window) passes the
debounce check but still spawns no worker and is never removed.  Two
triggers within the window spawn exactly one worker; two triggers more
than the window apart each spawn a worker only when the first run's worker
removed the lock file before the second trigger (normal completion) — when
the first lock file persists, the second trigger spawns nothing. -/
theorem lock_debounce_amended :
    (∀ (now mt pid : Nat) (alive : Nat → Bool), pid ≠ 0 → alive pid = true →
      shouldDebounce now alive (.present (.withPid pid) mt) = true) ∧
    (∀ (now mt pid : Nat) (alive : Nat → Bool), alive pid = false →
      shouldDebounce now alive (.present (.withPid pid) mt) =
        decide (now - mt < LOCK_WINDOW_MS)) ∧
    (∀ (now myPid : Nat) (alive : Nat → Bool) (rec : LockParse) (mt w : Nat),
      trigger now myPid alive ⟨.present rec mt, w⟩ = ⟨.present rec mt, w⟩) ∧
    (∀ (p1 p2 : Nat),
      (trigger 2000 p2 (fun _ => false)
        (trigger 0 p1 (fun _ => false) ⟨.absent, 0⟩)).workers = 1) ∧
    (∀ (p1 p2 : Nat),
      (trigger 15000 p2 (fun _ => false)
        (workerFinish
          (trigger 0 p1 (fun _ => false) ⟨.absent, 0⟩))).workers = 2) ∧
    (∀ (p1 p2 : Nat),
      (trigger 15000 p2 (fun _ => false)
        (trigger 0 p1 (fun _ => false) ⟨.absent, 0⟩)).workers = 1) := by
  refine ⟨?_, ?_, ?_, ?_, ?_, ?_⟩
  · intro now mt pid alive h1 h2
    simp [shouldDebounce, h1, h2]
  · intro now mt pid alive h
    simp [shouldDebounce, h]
  · intro now myPid alive rec mt w
    by_cases h : shouldDebounce now alive (.present rec mt) = true
    · simp [trigger, h]
    · simp [trigger, h]
  · intro p1 p2
    simp [trigger, shouldDebounce, LOCK_WINDOW_MS]
  · intro p1 p2
    simp [trigger, workerFinish, shouldDebounce, LOCK_WINDOW_MS]
  · intro p1 p2
    simp [trigger, shouldDebounce, LOCK_WINDOW_MS]

/-- C3 witness: the amended theorem applied at concrete inputs — an alive
owner (pid 7) debounces, and a dead owner's debounce decision equals the
age test. -/
theorem lock_debounce_amended_witness :
    shouldDebounce 0 (fun _ => true) (.present (.withPid 7) 0) = true ∧
    shouldDebounce 15000 (fun _ => false) (.present (.withPid 7) 0) =
      decide (15000 - 0 < LOCK_WINDOW_MS) :=
  ⟨lock_debounce_amended.1 0 0 7 (fun _ => true) (by decide) rfl,
   lock_debounce_amended.2.1 15000 0 7 (fun _ => false) rfl⟩

/-- C6 counterexample: two successive push runs over a fresh empty clone
with identical mirrored content (and even an identical lock-metadata value)
BOTH create a commit — history grows from 0 to 2 commits — because the
first committing run appends the post-push audit line to the worktree, so
the second run's staged tree again differs from its last commit.  This
refutes the claim that a repeated push with unchanged mirrored content
creates no new commit. -/
theorem commit_idempotence_cex :
    (pushRun 1 ⟨⟨0, 0, 0⟩, ⟨0, 0, 0⟩, []⟩).commits.length = 1 ∧
    (pushRun 1 (pushRun 1 ⟨⟨0, 0, 0⟩, ⟨0, 0, 0⟩, []⟩)).commits.length = 2 ∧
    (pushRun 1 (pushRun 1 ⟨⟨0, 0, 0⟩, ⟨0, 0, 0⟩, []⟩)).worktree.mirrored =
      (pushRun 1 ⟨⟨0, 0, 0⟩, ⟨0, 0, 0⟩, []⟩).worktree.mirrored := by
  refine ⟨rfl, rfl, rfl⟩

/-- C6 (amended): in every run of `syncToRemote` a commit is created if and
only if the staged tree differs from the last committed tree (the porcelain
guard works as coded) — but the staged tree is the whole workspace,
including the engine's own lock file (rewritten with a fresh timestamp and
pid by every trigger) and audit log (which gains the post-push success line
on every committing run); consequently a repeated push with unchanged
mirrored content after any committing push still finds a staged difference
and commits again, so commit history grows on every such run instead of
staying constant. -/
theorem commit_growth_amended :
    (∀ (r : GitRepo),
      ((syncToRemote r).commits.length = r.commits.length + 1 ↔
        r.commits.head? ≠ some r.worktree) ∧
      ((syncToRemote r).commits = r.commits ↔
        r.commits.head? = some r.worktree)) ∧
    (∀ (r : GitRepo) (f1 f2 : Nat),
      r.commits.head? ≠ some { r.worktree with lockMeta := f1 } →
      (pushRun f2 (pushRun f1 r)).commits.length = r.commits.length + 2) := by
  constructor
  · intro r
    by_cases h : r.commits.head? = some r.worktree
    · constructor
      · simp [syncToRemote, h]
      · simp [syncToRemote, h]
    · constructor
      · simp [syncToRemote, h]
      · simp only [syncToRemote, h, if_false]
        constructor
        · intro he
          exact absurd he (List.cons_ne_self _ _)
        · intro he
          exact he.elim
  · intro r f1 f2 h
    obtain ⟨⟨m, l, a⟩, idx, cs⟩ := r
    simp only at h
    simp [pushRun, syncToRemote, h, WorkTree.mk.injEq]

/-- C6 witness: the growth half of the amended theorem applied at the
concrete fresh-clone repository with lock values 1 and 2: two pushes with
unchanged mirrored content add two commits. -/
theorem commit_growth_amended_witness :
    (pushRun 2 (pushRun 1 ⟨⟨0, 0, 0⟩, ⟨0, 0, 0⟩, []⟩)).commits.length = 2 :=
  commit_growth_amended.2 ⟨⟨0, 0, 0⟩, ⟨0, 0, 0⟩, []⟩ 1 2 (by decide)

/-- C9: `clean` never removes an entry whose resolved real path lies
outside its originating SourceRoot — an entry is deleted only when its real
path passes the containment check against the resolved SourceRoot; a
non-symlink file or directory entry resolving inside is deleted in place,
one resolving outside is skipped with an error logged, and a symlink entry
is always skipped without deletion. -/
theorem clean_never_escapes :
    (∀ (src : JPath) (k : LKind) (real : JPath),
      cleanEntry src k real = .deleted → insideDir src real = true) ∧
    (∀ (src real : JPath), insideDir src real = true →
      cleanEntry src .fileK real = .deleted ∧
      cleanEntry src .dirK real = .deleted) ∧
    (∀ (src : JPath) (k : LKind) (real : JPath), k ≠ .symlinkK →
      insideDir src real = false →
      cleanEntry src k real = .skippedOutside) ∧
    (∀ (src real : JPath), cleanEntry src .symlinkK real = .skippedSymlink)
    := by
  refine ⟨?_, ?_, ?_, fun _ _ => rfl⟩
  · intro src k real hdel
    cases hin : insideDir src real with
    | true => rfl
    | false => cases k <;> simp [cleanEntry, hin] at hdel
  · intro src real hin
    exact ⟨by simp [cleanEntry, hin], by simp [cleanEntry, hin]⟩
  · intro src k real hk hin
    cases k with
    | symlinkK => exact absurd rfl hk
    | fileK => simp [cleanEntry, hin]
    | dirK => simp [cleanEntry, hin]
    | otherK => simp [cleanEntry, hin]

/-- C9 witness: the theorem applied at concrete inputs — an entry of
`/s` resolving to `/s/x` is deleted for both file and directory kinds, one
resolving to `/z` (outside) is skipped with the error action, and a
deletion implies containment at a concrete deleted input. -/
theorem clean_never_escapes_witness :
    (cleanEntry [['s']] .fileK [['s'], ['x']] = .deleted ∧
      cleanEntry [['s']] .dirK [['s'], ['x']] = .deleted) ∧
    cleanEntry [['s']] .fileK [['z']] = .skippedOutside ∧
    insideDir [['s']] [['s'], ['x']] = true :=
  ⟨clean_never_escapes.2.1 [['s']] [['s'], ['x']] (by decide),
   clean_never_escapes.2.2.1 [['s']] .fileK [['z']] (by decide) (by decide),
   clean_never_escapes.1 [['s']] .fileK [['s'], ['x']]
     (clean_never_escapes.2.1 [['s']] [['s'], ['x']] (by decide)).1⟩

theorem safeShellToken_ok {s t : JStr} (h : safeShellToken s = .ok t) :
    t = s ∧ s.isEmpty = false ∧ s.all safeTokenChar = true := by
  unfold safeShellToken at h
  cases hc : (!s.isEmpty && s.all safeTokenChar) with
  | false =>
    rw [hc] at h
    simp at h
  | true =>
    rw [hc] at h
    simp at h
    obtain ⟨h1, h2⟩ := Bool.and_eq_true_iff.mp hc
    exact ⟨h.symm, by simpa using h1, h2⟩

theorem safeShellToken_all_false {s : JStr}
    (h : s.all safeTokenChar = false) : safeShellToken s = .error s := by
  unfold safeShellToken
  simp [h]

/-- C10: every externally derived token interpolated into a bootstrap
shell command is validated by `safeShellToken` against the whitelist
`^[A-Za-z0-9._/:-]+$` — a string containing any character outside the class
makes `safeShellToken` throw; a successful validation returns the input
unchanged and certifies membership; and the `gh repo create` and
`git clone` command lines are only constructed when every interpolated
token (host, user/repository reference, workspace path) passed
validation. -/
theorem shell_token_whitelist :
    (∀ (s : JStr) (c : Char), c ∈ s → safeTokenChar c = false →
      exceptOk (safeShellToken s) = false) ∧
    (∀ (s t : JStr), safeShellToken s = .ok t →
      t = s ∧ s ≠ [] ∧ s.all safeTokenChar = true) ∧
    (∀ (host repoRef dir cmd : JStr),
      buildCloneCmd host repoRef dir = .ok cmd →
      host.all safeTokenChar = true ∧ repoRef.all safeTokenChar = true ∧
      dir.all safeTokenChar = true) ∧
    (∀ (repoRef cmd : JStr), buildRepoCreateCmd repoRef = .ok cmd →
      repoRef.all safeTokenChar = true) := by
  refine ⟨?_, ?_, ?_, ?_⟩
  · intro s c hc hbad
    have hall : s.all safeTokenChar = false := by
      cases hall : s.all safeTokenChar with
      | false => rfl
      | true => exact absurd (List.all_eq_true.mp hall c hc) (by simp [hbad])
    rw [safeShellToken_all_false hall]
    rfl
  · intro s t h
    obtain ⟨h1, h2, h3⟩ := safeShellToken_ok h
    refine ⟨h1, ?_, h3⟩
    intro he
    subst he
    simp at h2
  · intro host repoRef dir cmd h
    unfold buildCloneCmd at h
    cases hh : safeShellToken host with
    | error e => rw [hh] at h; exact absurd h (by simp)
    | ok hv =>
      rw [hh] at h
      cases hr : safeShellToken repoRef with
      | error e => rw [hr] at h; exact absurd h (by simp)
      | ok rv =>
        rw [hr] at h
        cases hd : safeShellToken dir with
        | error e => rw [hd] at h; exact absurd h (by simp)
        | ok dv =>
          exact ⟨(safeShellToken_ok hh).2.2, (safeShellToken_ok hr).2.2,
            (safeShellToken_ok hd).2.2⟩
  · intro repoRef cmd h
    unfold buildRepoCreateCmd at h
    cases hr : safeShellToken repoRef with
    | error e => rw [hr] at h; exact absurd h (by simp)
    | ok rv => exact (safeShellToken_ok hr).2.2

/-- C10 witness: the theorem applied at concrete inputs — a token
containing a space is rejected, validation of `g.h` succeeds returning it
unchanged, and a concretely built clone command certifies all three
tokens. -/
theorem shell_token_whitelist_witness :
    exceptOk (safeShellToken [' ']) = false ∧
    (['g'] = (['g'] : JStr) ∧ (['g'] : JStr) ≠ [] ∧
      ['g'].all safeTokenChar = true) ∧
    (['g'].all safeTokenChar = true ∧ ['r'].all safeTokenChar = true ∧
      ['d'].all safeTokenChar = true) :=
  ⟨shell_token_whitelist.1 [' '] ' ' (List.mem_singleton.mpr rfl) (by decide),
   shell_token_whitelist.2.1 ['g'] ['g'] (by rfl),
   shell_token_whitelist.2.2.1 ['g'] ['r'] ['d']
     ("git clone https://".toList ++ ['g'] ++ ['/'] ++ ['r'] ++
       ".git ".toList ++ ['d'])
     (by rfl)⟩

/-- The file writes of mirroring are unchanged when every symbolic link is
erased from the source tree first: symlink subtrees contribute no writes. -/
theorem copyWrites_prune (sd : JPath) :
    ∀ (e : FsEntry) (dest : JPath),
      (copyRecursive sd e dest).1 = (copyRecursive sd (pruneSym e) dest).1 :=
  @FsEntry.rec
    (fun e => ∀ dest,
      (copyRecursive sd e dest).1 = (copyRecursive sd (pruneSym e) dest).1)
    (fun es => ∀ dest,
      (copyEntries sd es dest).1 =
        (copyEntries sd (pruneSymEntries es) dest).1)
    (fun _ _ => rfl)
    (fun cs ih dest => by
      simpa only [copyRecursive, pruneSym] using ih dest)
    (fun _ _ => rfl)
    (fun _ => rfl)
    (fun n e rest ih ihr dest => by
      cases e with
      | file d =>
        simp only [copyEntries, pruneSymEntries, pruneSym]
        rw [ihr dest]
      | dir cs =>
        simp only [copyEntries, pruneSymEntries]
        rw [ih (dest ++ [n]), ihr dest]
      | symlink t =>
        simp only [copyEntries, pruneSymEntries, copyRecursive]
        rw [ihr dest]
        simp)

/-- Every file write performed by mirroring lands inside the workspace
directory. -/
theorem copyWrites_inside (sd : JPath) :
    ∀ (e : FsEntry) (dest p : JPath) (d : Nat),
      (p, d) ∈ (copyRecursive sd e dest).1 → insideDir sd p = true :=
  @FsEntry.rec
    (fun e => ∀ dest p d,
      (p, d) ∈ (copyRecursive sd e dest).1 → insideDir sd p = true)
    (fun es => ∀ dest p d,
      (p, d) ∈ (copyEntries sd es dest).1 → insideDir sd p = true)
    (fun dd dest p d hm => by
      cases hin : insideDir sd dest with
      | true =>
        simp only [copyRecursive, hin, if_true, List.mem_singleton] at hm
        rw [Prod.mk.injEq] at hm
        rw [hm.1]
        exact hin
      | false => simp [copyRecursive, hin] at hm)
    (fun cs ih dest p d hm => by
      simp only [copyRecursive] at hm
      exact ih dest p d hm)
    (fun t dest p d hm => by simp [copyRecursive] at hm)
    (fun dest p d hm => by simp [copyEntries] at hm)
    (fun n e rest ih ihr dest p d hm => by
      simp only [copyEntries, List.mem_append] at hm
      rcases hm with hm | hm
      · exact ih (dest ++ [n]) p d hm
      · exact ihr dest p d hm)

/-- C7: for every entry encountered during mirroring, a symbolic link is
never followed, copied, or descended into, regardless of its target: the
entry is skipped with a single informational audit entry and contributes no
writes, and erasing all symlinks from the source tree beforehand leaves the
set of file writes unchanged. -/
theorem mirror_skips_symlinks :
    (∀ (sd : JPath) (t : JStr) (dest : JPath),
      copyRecursive sd (.symlink t) dest = ([], [.info])) ∧
    (∀ (sd : JPath) (e : FsEntry) (dest : JPath),
      (copyRecursive sd e dest).1 =
        (copyRecursive sd (pruneSym e) dest).1) :=
  ⟨fun _ _ _ => rfl, fun sd e dest => copyWrites_prune sd e dest⟩

/-- C8: before any regular file is written during mirroring the resolved
destination is checked to lie inside the resolved workspace root — no write
ever lands outside it; a failing check writes nothing and logs an ERROR
audit entry for that single file, and processing of the remaining sibling
entries continues unaffected. -/
theorem mirror_write_containment :
    (∀ (sd : JPath) (e : FsEntry) (dest p : JPath) (d : Nat),
      (p, d) ∈ (copyRecursive sd e dest).1 → insideDir sd p = true) ∧
    (∀ (sd : JPath) (d : Nat) (dest : JPath), insideDir sd dest = false →
      copyRecursive sd (.file d) dest = ([], [.error])) ∧
    (∀ (sd : JPath) (n : JStr) (d : Nat) (rest : FsEntries) (dest : JPath),
      insideDir sd (dest ++ [n]) = false →
      copyEntries sd (.cons n (.file d) rest) dest =
        ((copyEntries sd rest dest).1,
          .error :: (copyEntries sd rest dest).2)) := by
  refine ⟨fun sd e dest p d hm => copyWrites_inside sd e dest p d hm,
    ?_, ?_⟩
  · intro sd d dest hin
    simp [copyRecursive, hin]
  · intro sd n d rest dest hin
    simp [copyEntries, copyRecursive, hin]

/-- C8 witness: the containment theorem applied at concrete inputs — a
write produced by mirroring `file 5` to `/s/x` under workspace `/s` is
certified inside, and mirroring a file to the outside destination `/z`
(directly and as a first sibling) writes nothing and logs the error while
the rest of the run continues. -/
theorem mirror_write_containment_witness :
    insideDir [['s']] [['s'], ['x']] = true ∧
    copyRecursive [['s']] (.file 5) [['z']] = ([], [.error]) ∧
    copyEntries [['s']] (.cons ['n'] (.file 5) .nil) [['z']] =
      ((copyEntries [['s']] .nil [['z']]).1,
        .error :: (copyEntries [['s']] .nil [['z']]).2) :=
  ⟨mirror_write_containment.1 [['s']] (.file 5) [['s'], ['x']] [['s'], ['x']]
      5 (by simp [copyRecursive, insideDir]),
   mirror_write_containment.2.1 [['s']] 5 [['z']] (by decide),
   mirror_write_containment.2.2 [['s']] ['n'] 5 .nil [['z']] (by decide)⟩

end SyncEngine
